import Mathlib

/-!
Shallow embedding of `scripts/validate_openclaw_config.py`.

Python strings are modelled as `List Char` (`Str`), environment mappings
(`os.environ`, the dotenv dictionary) as association lists `List (Str × Str)`
looked up at the first matching key, and YAML documents as the inductive
`Yaml`.  Every function is a direct transcription of the corresponding Python
code; doc comments name the source lines.
-/

/-- Python strings, modelled as lists of characters. -/
abbrev Str := List Char

/-- The whitespace characters stripped by Python's `str.strip()` (ASCII part). -/
def isSpaceChar (c : Char) : Bool :=
  c = ' ' || c = '\t' || c = '\n' || c = '\r' || c = '\x0b' || c = '\x0c'

/-- Python `s.strip()`: remove leading and trailing whitespace. -/
def pyStrip (s : Str) : Str :=
  ((s.dropWhile isSpaceChar).reverse.dropWhile isSpaceChar).reverse

/-- An environment mapping (`os.environ` or the dotenv dict): association list,
lookup takes the first entry with the given key. -/
abbrev EnvMap := List (Str × Str)

/-- Dictionary lookup: `d.get(k)` / `os.getenv(k)` returning `None` when absent. -/
def lookupEnv (e : EnvMap) (k : Str) : Option Str :=
  (e.find? (fun kv => kv.1 = k)).map (·.2)

/-- Dictionary update `d[k] = v` (Python dict keys are unique). -/
def setEnv (e : EnvMap) (k v : Str) : EnvMap :=
  (e.filter (fun kv => kv.1 ≠ k)) ++ [(k, v)]

/-- Python truthiness of `os.getenv(k)`: the variable is present with a
non-empty value. -/
def truthyEnv (e : EnvMap) (k : Str) : Bool :=
  match lookupEnv e k with
  | some v => v ≠ []
  | none => false

/-- `load_dotenv`, lines 39-40: strip one layer of matching quotes from a value. -/
def stripQuotes (v : Str) : Str :=
  if (v.head? = some '"' ∧ v.getLast? = some '"') ∨
     (v.head? = some '\'' ∧ v.getLast? = some '\'') then
    (v.drop 1).dropLast
  else v

/-- `load_dotenv`, lines 30-41: process one raw line of the dotenv file.
Returns `none` for skipped lines (blank, comment, no `=`), otherwise the
key/value pair: split at the first `=`, both sides stripped, value unquoted. -/
def parseDotenvLine (raw : Str) : Option (Str × Str) :=
  let line := pyStrip raw
  if line = [] then none
  else if line.head? = some '#' then none
  else if '=' ∉ line then none
  else
    let k := pyStrip (line.takeWhile (fun c => c ≠ '='))
    let v := stripQuotes (pyStrip ((line.dropWhile (fun c => c ≠ '=')).drop 1))
    some (k, v)

/-- `load_dotenv`, lines 26-42: fold the file's lines into a dict. -/
def load_dotenv (lines : List Str) : EnvMap :=
  lines.foldl
    (fun env raw =>
      match parseDotenvLine raw with
      | some (k, v) => setEnv env k v
      | none => env)
    []

/-- `main`, lines 60-62: inject dotenv values into the process environment.
The guard is Python truthiness (`if not os.getenv(k)`): a variable that is
absent, or present with an empty value, gets overwritten. -/
def injectDotenv (procEnv : EnvMap) (dotenv : EnvMap) : EnvMap :=
  dotenv.foldl
    (fun env kv => if truthyEnv env kv.1 then env else setEnv env kv.1 kv.2)
    procEnv

/-- `[A-Za-z0-9_]`, the character class of `PLACEHOLDER_RE` (line 16). -/
def isWordChar (c : Char) : Bool :=
  (('A' ≤ c ∧ c ≤ 'Z') ∨ ('a' ≤ c ∧ c ≤ 'z') ∨ ('0' ≤ c ∧ c ≤ '9') ∨ c = '_')

/-- Try to match `PLACEHOLDER_RE` = `\$\{([A-Za-z0-9_]+)\}` at the head of the
string.  On success returns the captured name and the remainder after `}`. -/
def matchPH : Str → Option (Str × Str)
  | '$' :: '{' :: rest =>
    if (rest.takeWhile isWordChar).isEmpty then none
    else
      match rest.dropWhile isWordChar with
      | '}' :: tail => some (rest.takeWhile isWordChar, tail)
      | _ => none
  | _ => none

theorem matchPH_length {s n t : Str} (h : matchPH s = some (n, t)) :
    t.length < s.length := by
  match s with
  | [] => simp [matchPH] at h
  | [c] =>
    unfold matchPH at h
    split at h <;> simp_all
  | c :: c' :: rest =>
    unfold matchPH at h
    split at h
    · rename_i rest' heq
      injection heq with h1 h2
      subst h1
      injection h2 with h2 h3
      subst h2 h3
      split at h
      · exact absurd h (by simp)
      · split at h
        · rename_i tail hdrop
          injection h with h
          injection h with h1 h2
          subst h2
          have hle : (rest.dropWhile isWordChar).length ≤ rest.length :=
            (List.dropWhile_suffix isWordChar).sublist.length_le
          rw [hdrop] at hle
          simp only [List.length_cons] at hle ⊢
          omega
        · exact absurd h (by simp)
    · exact absurd h (by simp)

/-- Fuelled scanner for `PLACEHOLDER_RE.sub`; the fuel only serves structural
recursion and is irrelevant once it is at least the string's length. -/
def substPHAux (look : Str → Str) : Nat → Str → Str
  | _, [] => []
  | 0, s => s
  | fuel + 1, c :: cs =>
    match matchPH (c :: cs) with
    | some (name, tail) => look name ++ substPHAux look fuel tail
    | none => c :: substPHAux look fuel cs

/-- `PLACEHOLDER_RE.sub(repl, obj)` (line 50): scan left to right; where the
pattern matches, emit `look name` (the replacement is not rescanned) and
continue after the token; otherwise copy one character. -/
def substPH (look : Str → Str) (s : Str) : Str :=
  substPHAux look s.length s

theorem substPHAux_congr (look : Str → Str) :
    ∀ (fuel fuel' : Nat) (s : Str), s.length ≤ fuel → s.length ≤ fuel' →
      substPHAux look fuel s = substPHAux look fuel' s := by
  intro fuel
  induction fuel with
  | zero =>
    intro fuel' s hs _
    match s with
    | [] => cases fuel' <;> rfl
    | c :: cs => simp at hs
  | succ f ih =>
    intro fuel' s hs hs'
    match s with
    | [] => cases fuel' <;> rfl
    | c :: cs =>
      match fuel' with
      | 0 => simp at hs'
      | f' + 1 =>
        simp only [substPHAux]
        match hm : matchPH (c :: cs) with
        | some (name, tail) =>
          have ht : tail.length < (c :: cs).length := matchPH_length hm
          simp only [List.length_cons] at hs hs' ht
          dsimp only
          rw [ih f' tail (by omega) (by omega)]
        | none =>
          simp only [List.length_cons] at hs hs'
          dsimp only
          rw [ih f' cs (by omega) (by omega)]

theorem substPH_nil (look : Str → Str) : substPH look [] = [] := rfl

theorem substPH_cons_some {c : Char} {cs name tail : Str} (look : Str → Str)
    (h : matchPH (c :: cs) = some (name, tail)) :
    substPH look (c :: cs) = look name ++ substPH look tail := by
  have ht : tail.length < (c :: cs).length := matchPH_length h
  simp only [substPH, List.length_cons, substPHAux, h]
  rw [substPHAux_congr look cs.length tail.length tail
    (by simpa using Nat.lt_succ_iff.mp (by simpa using ht)) le_rfl]

theorem substPH_cons_none {c : Char} {cs : Str} (look : Str → Str)
    (h : matchPH (c :: cs) = none) :
    substPH look (c :: cs) = c :: substPH look cs := by
  simp only [substPH, List.length_cons, substPHAux, h]

/-- The replacement function `repl` (lines 47-49):
`env_map.get(name, os.getenv(name, m.group(0)))`. -/
def phLook (env_map procEnv : EnvMap) (name : Str) : Str :=
  match lookupEnv env_map name with
  | some v => v
  | none =>
    match lookupEnv procEnv name with
    | some v => v
    | none => '$' :: '{' :: (name ++ ['}'])

/-- `resolve_placeholders` on a string (lines 46-50). -/
def resolveStr (env_map procEnv : EnvMap) (s : Str) : Str :=
  substPH (phLook env_map procEnv) s

example :
    resolveStr [("FOO".data, "bar".data)] [] "x ${FOO} y".data = "x bar y".data := by
  decide

example : resolveStr [] [] "x ${FOO} y".data = "x ${FOO} y".data := by decide

example : resolveStr [] [("A".data, "1".data)] "${A}${A}".data = "11".data := by
  decide

example : resolveStr [] [] "${A B}".data = "${A B}".data := by decide

/-- YAML documents as returned by `yaml.safe_load`: strings, numbers,
booleans, `null` (Python `None`), sequences and mappings. -/
inductive Yaml where
  | str : Str → Yaml
  | num : Int → Yaml
  | bool : Bool → Yaml
  | null : Yaml
  | arr : List Yaml → Yaml
  | map : List (Str × Yaml) → Yaml

/-- Python truthiness of a YAML value (`if not providers`, `if apiKey`, ...). -/
def yamlTruthy : Yaml → Bool
  | .str s => ¬ s.isEmpty
  | .num n => n ≠ 0
  | .bool b => b
  | .null => false
  | .arr l => ¬ l.isEmpty
  | .map l => ¬ l.isEmpty

/-- Truthiness of `d.get(k)`: `None` (absent key) is falsy. -/
def optTruthy : Option Yaml → Bool
  | some y => yamlTruthy y
  | none => false

/-- Mapping lookup `m.get(k)` on a parsed YAML mapping. -/
def lookupYaml (kvs : List (Str × Yaml)) (k : Str) : Option Yaml :=
  (kvs.find? (fun kv => kv.1 = k)).map (·.2)

mutual
/-- `resolve_placeholders` (lines 45-55): strings get the regex substitution,
mappings and sequences are rebuilt recursively, all other scalars are
returned unchanged. -/
def resolve_placeholders (env_map procEnv : EnvMap) : Yaml → Yaml
  | .str s => .str (resolveStr env_map procEnv s)
  | .map kvs => .map (resolvePHMap env_map procEnv kvs)
  | .arr l => .arr (resolvePHList env_map procEnv l)
  | .num n => .num n
  | .bool b => .bool b
  | .null => .null

/-- The dict comprehension of line 52, value by value. -/
def resolvePHMap (env_map procEnv : EnvMap) :
    List (Str × Yaml) → List (Str × Yaml)
  | [] => []
  | (k, v) :: rest =>
    (k, resolve_placeholders env_map procEnv v) :: resolvePHMap env_map procEnv rest

/-- The list comprehension of line 54, element by element. -/
def resolvePHList (env_map procEnv : EnvMap) : List Yaml → List Yaml
  | [] => []
  | v :: rest =>
    resolve_placeholders env_map procEnv v :: resolvePHList env_map procEnv rest
end

/-- The string contains no match of `PLACEHOLDER_RE` (no placeholder token
starts at any position). -/
def noPH : Str → Bool
  | [] => true
  | c :: cs => (matchPH (c :: cs)).isNone && noPH cs

mutual
/-- No string anywhere in the value contains a `PLACEHOLDER_RE` match. -/
def yamlNoPH : Yaml → Bool
  | .str s => noPH s
  | .map kvs => mapNoPH kvs
  | .arr l => listNoPH l
  | .num _ => true
  | .bool _ => true
  | .null => true

def mapNoPH : List (Str × Yaml) → Bool
  | [] => true
  | (_, v) :: rest => yamlNoPH v && mapNoPH rest

def listNoPH : List Yaml → Bool
  | [] => true
  | v :: rest => yamlNoPH v && listNoPH rest
end

/-- Python `s.startswith(pre)`. -/
def pyStartsWith (pre s : Str) : Bool := pre.isPrefixOf s

/-- Python `s.endswith(suf)`. -/
def pyEndsWith (suf s : Str) : Bool := suf.isSuffixOf s

/-- `main`, line 89: `apiKey[:4] + "..." + apiKey[-4:] if len(apiKey) > 8
else "****"`. -/
def maskApiKey (s : Str) : Str :=
  if 8 < s.length then
    s.take 4 ++ ('.' :: '.' :: '.' :: []) ++ s.drop (s.length - 4)
  else
    '*' :: '*' :: '*' :: '*' :: []

/-- `main`, lines 93-97: candidate env-var names for a provider whose apiKey
did not resolve.  The original token contributes its inner text whenever it
starts with `${` and ends with `}` (no constraint on the characters between),
then the convention name `OPENCLAW_<NAME.upper()>_API_KEY` is appended. -/
def envVarCandidates (orig_apiKey : Option Yaml) (name : Str) : List Str :=
  (match orig_apiKey with
   | some (.str o) =>
     if pyStartsWith "$\x7b".data o ∧ pyEndsWith "\x7d".data o then
       [(o.drop 2).dropLast]
     else []
   | _ => []) ++
  ["OPENCLAW_".data ++ name.map Char.toUpper ++ "_API_KEY".data]

/-- The string is exactly one `${NAME}` token of `PLACEHOLDER_RE`
(NAME nonempty, alphanumeric/underscore).  Used to state the spec's
"matched the placeholder pattern" side of C5. -/
def isPlaceholderToken (s : Str) : Bool :=
  match matchPH s with
  | some (_, []) => true
  | _ => false

/-- What the per-provider apiKey inspection prints (lines 87-105). -/
inductive KeyReport where
  | masked : Str → KeyReport
  | envPresent : Str → KeyReport
  | warning : List Str → KeyReport
deriving DecidableEq

/-- `main`, lines 92-105: the fallback path when the resolved apiKey is
unresolved or absent.  Candidates are checked in order with Python-truthy
`os.getenv`; the first hit is reported, else a warning lists them all. -/
def fallbackReport (procEnv : EnvMap) (name : Str) (orig_apiKey : Option Yaml) :
    KeyReport :=
  let cands := envVarCandidates orig_apiKey name
  match cands.find? (fun ev => truthyEnv procEnv ev) with
  | some ev => .envPresent ev
  | none => .warning cands

/-- `main`, lines 85-105: resolve the provider record, inspect its `apiKey`,
and produce the printed report.  The masked branch requires a truthy string
not starting with `${`; everything else goes to the fallback. -/
def apiKeyReport (env_map procEnv : EnvMap) (name : Str)
    (info : List (Str × Yaml)) : KeyReport :=
  let resolvedInfo := resolvePHMap env_map procEnv info
  match lookupYaml resolvedInfo "apiKey".data with
  | some (.str s) =>
    if s ≠ [] ∧ ¬ pyStartsWith "$\x7b".data s then .masked (maskApiKey s)
    else fallbackReport procEnv name (lookupYaml info "apiKey".data)
  | _ => fallbackReport procEnv name (lookupYaml info "apiKey".data)

/-- `cfg is None` / `yaml.safe_load` returning `None`: the YAML null. -/
def isNull : Yaml → Bool
  | .null => true
  | _ => false

/-- `load_config` (lines 18-23), on the file's parse result (`none` = file
absent).  Returns what the function returns (Python `None` modelled as
`Option.none`, which also arises when the document parses to null) and
whether the "Config file not found" message was printed. -/
def load_config (file : Option Yaml) : Option Yaml × Bool :=
  match file with
  | none => (none, true)
  | some y => (if isNull y then none else some y, false)

/-- `models = info.get("models") or []` (line 80): a falsy value (absent key,
null, empty list/string/mapping, zero, false) becomes the empty list. -/
def effModels (v : Option Yaml) : Yaml :=
  match v with
  | some y => if yamlTruthy y then y else .arr []
  | none => .arr []

/-- The body of the provider loop (lines 74-105) runs without a Python
exception: the record is a mapping, and iterating `models` with `m.get(...)`
works, i.e. the effective `models` value is a sequence of mappings.
(`len()` and iteration fail on scalars; string/dict elements lack `.get`.) -/
def providerLoopOk (info : Yaml) : Bool :=
  match info with
  | .map kvs =>
    match effModels (lookupYaml kvs "models".data) with
    | .arr l => l.all (fun m => match m with | .map _ => true | _ => false)
    | _ => false
  | _ => false

/-- The agents section (lines 108-126) runs without a Python exception:
absent or falsy `agents` is skipped; otherwise `agents` must be a mapping and
`defaults` / `model` must be mappings when present (their `.get` defaults
only cover the absent-key case). -/
def agentsOk (kvs : List (Str × Yaml)) : Bool :=
  match lookupYaml kvs "agents".data with
  | none => true
  | some a =>
    if yamlTruthy a = false then true
    else
      match a with
      | .map akvs =>
        (match (lookupYaml akvs "defaults".data).getD (.map []) with
         | .map dkvs =>
           (match (lookupYaml dkvs "model".data).getD (.map []) with
            | .map _ => true
            | _ => false)
         | _ => false)
      | _ => false

/-- The observable outcome of a run of the script that the exit-code claims
talk about: exit status, whether "Config file not found" was printed,
whether "No providers section" was printed, how many providers were
reported, and whether "Validation complete" was printed. -/
structure MainOutcome where
  exitCode : Nat
  printedNotFound : Bool
  printedNoProviders : Bool
  providersReported : Nat
  agentsReported : Bool
  printedComplete : Bool
deriving DecidableEq

/-- The control flow of the script (lines 7-11 import guard, lines 57-128
`main`), projected onto `MainOutcome`.  `yamlAvailable` models whether
`import yaml` succeeds; `file` is the config file's parse result (`none` =
absent).  `none` as result models an uncaught Python exception (a config
value whose shape makes `.get`/iteration fail).  The dotenv handling of
lines 59-62 only influences the text of the report, never the exit path,
so it is modelled separately (`injectDotenv`, `apiKeyReport`). -/
def mainRun (yamlAvailable : Bool) (file : Option Yaml) : Option MainOutcome :=
  if yamlAvailable = false then
    some ⟨2, false, false, 0, false, false⟩
  else
    match load_config file with
    | (none, printedNF) => some ⟨1, printedNF, false, 0, false, false⟩
    | (some cfg, printedNF) =>
      match cfg with
      | .map kvs =>
        let provOpt := lookupYaml kvs "providers".data
        if optTruthy provOpt = false then
          some ⟨1, printedNF, true, 0, false, false⟩
        else
          match provOpt with
          | some (.map provs) =>
            if provs.all (fun p => providerLoopOk p.2) && agentsOk kvs then
              some ⟨0, printedNF, false, provs.length,
                    optTruthy (lookupYaml kvs "agents".data), true⟩
            else none
          | _ => none
      | _ => none

theorem takeWhile_dropWhile_append {p : Char → Bool} :
    ∀ (xs : Str), (∀ x ∈ xs, p x = true) → ∀ (y : Char), p y = false → ∀ (ys : Str),
      (xs ++ y :: ys).takeWhile p = xs ∧ (xs ++ y :: ys).dropWhile p = y :: ys := by
  intro xs
  induction xs with
  | nil =>
    intro _ y hy ys
    simp [List.takeWhile_cons, List.dropWhile_cons, hy]
  | cons a as ih =>
    intro hall y hy ys
    have ha : p a = true := hall a (by simp)
    have ih' := ih (fun x hx => hall x (by simp [hx])) y hy ys
    simp [List.takeWhile_cons, List.dropWhile_cons, ha, ih'.1, ih'.2]

theorem dropWhile_ne_of_mem {a : Char} :
    ∀ (l : Str), a ∈ l →
      ∃ post, l.dropWhile (fun c => c ≠ a) = a :: post := by
  intro l
  induction l with
  | nil => intro h; simp at h
  | cons c cs ih =>
    intro h
    by_cases hca : c = a
    · subst hca
      exact ⟨cs, by rw [List.dropWhile_cons]; simp⟩
    · have hmem : a ∈ cs := by
        rcases List.mem_cons.mp h with h1 | h1
        · exact absurd h1.symm hca
        · exact h1
      obtain ⟨post, hp⟩ := ih hmem
      refine ⟨post, ?_⟩
      rw [List.dropWhile_cons]
      simp only [hca, ne_eq, decide_not]
      simp only [ne_eq, decide_not] at hp
      simp [hca, hp]

/-- **C6.** A dotenv line that is blank after trimming, starts with `#` after
trimming, or contains no `=` is skipped (contributes no entry to the mapping,
in whatever position it occurs); every other line is split at the first `=`,
with key and value both trimmed (the value then loses one layer of quotes,
see C7). -/
theorem dotenv_line_handling (raw : Str) :
    (parseDotenvLine raw = none ↔
      (pyStrip raw = [] ∨ (pyStrip raw).head? = some '#' ∨
       '=' ∉ pyStrip raw))
    ∧ (∀ ls1 ls2, parseDotenvLine raw = none →
        load_dotenv (ls1 ++ raw :: ls2) = load_dotenv (ls1 ++ ls2))
    ∧ (∀ pre post, pyStrip raw = pre ++ '=' :: post → '=' ∉ pre →
        (pre ++ '=' :: post).head? ≠ some '#' →
        parseDotenvLine raw = some (pyStrip pre, stripQuotes (pyStrip post))) := by
  refine ⟨?_, ?_, ?_⟩
  · constructor
    · intro h
      unfold parseDotenvLine at h
      dsimp only at h
      split_ifs at h with h1 h2 h3
      · exact Or.inl h1
      · exact Or.inr (Or.inl h2)
      · exact Or.inr (Or.inr h3)
    · intro h
      unfold parseDotenvLine
      dsimp only
      rcases h with h | h | h <;> split_ifs <;> simp_all
  · intro ls1 ls2 h
    unfold load_dotenv
    rw [List.foldl_append, List.foldl_append, List.foldl_cons, h]
  · intro pre post hsplit hpre hhash
    have hmem : '=' ∈ pre ++ '=' :: post := by simp
    have htd := takeWhile_dropWhile_append (p := fun c => c ≠ '=') pre
      (fun x hx => by simp; exact fun hxe => hpre (hxe ▸ hx)) '=' (by simp) post
    have hne : pre ++ '=' :: post ≠ [] := by simp
    unfold parseDotenvLine
    dsimp only
    rw [hsplit]
    rw [if_neg hne, if_neg hhash, if_neg (by simp [hmem])]
    rw [htd.1, htd.2]
    simp

theorem stripQuotes_wrap {q : Char} (hq : q = '"' ∨ q = '\'') (s : Str) :
    stripQuotes ((q :: s) ++ [q]) = s := by
  have hcons : (q :: s) ++ [q] = q :: (s ++ [q]) := by simp
  have hhead : (q :: (s ++ [q])).head? = some q := rfl
  have hlast : (q :: (s ++ [q])).getLast? = some q := by
    rw [← hcons, List.getLast?_concat]
  rw [hcons, stripQuotes]
  rcases hq with hq | hq <;> subst hq
  · rw [if_pos (Or.inl ⟨hhead, hlast⟩)]
    simp [List.dropLast_concat]
  · rw [if_pos (Or.inr ⟨hhead, hlast⟩)]
    simp [List.dropLast_concat]

/-- **C7.** A dotenv value wrapped in a single matching pair of quotes
(double or single) is stored with exactly those two quote characters
removed; only one layer is stripped, so a doubly-wrapped value keeps the
inner layer. -/
theorem dotenv_quote_stripping (s : Str) :
    stripQuotes (('"' :: s) ++ ['"']) = s
    ∧ stripQuotes (('\'' :: s) ++ ['\'']) = s
    ∧ stripQuotes (('"' :: (('"' :: s) ++ ['"'])) ++ ['"']) = ('"' :: s) ++ ['"']
    ∧ stripQuotes (('\'' :: (('\'' :: s) ++ ['\''])) ++ ['\'']) =
        ('\'' :: s) ++ ['\''] :=
  ⟨stripQuotes_wrap (Or.inl rfl) s, stripQuotes_wrap (Or.inr rfl) s,
   stripQuotes_wrap (Or.inl rfl) _, stripQuotes_wrap (Or.inr rfl) _⟩

theorem find?_filter_of_imp {p q : Str × Str → Bool} :
    ∀ (l : EnvMap), (∀ x, p x = true → q x = true) →
      (l.filter q).find? p = l.find? p := by
  intro l h
  induction l with
  | nil => rfl
  | cons a as ih =>
    by_cases hp : p a = true
    · rw [List.filter_cons_of_pos (h a hp), List.find?_cons_of_pos _ hp,
        List.find?_cons_of_pos _ hp]
    · by_cases hq : q a = true
      · rw [List.filter_cons_of_pos hq, List.find?_cons_of_neg _ (by simp [hp]),
          List.find?_cons_of_neg _ (by simp [hp]), ih]
      · rw [List.filter_cons_of_neg (by simp [hq]),
          List.find?_cons_of_neg _ (by simp [hp]), ih]

theorem lookupEnv_setEnv_self (e : EnvMap) (k v : Str) :
    lookupEnv (setEnv e k v) k = some v := by
  unfold lookupEnv setEnv
  rw [List.find?_append]
  have h1 : (e.filter (fun kv => kv.1 ≠ k)).find? (fun kv => kv.1 = k) = none := by
    rw [List.find?_eq_none]
    intro x hx
    have hxk := (List.mem_filter.mp hx).2
    simp only [ne_eq, decide_not, Bool.not_eq_eq_eq_not, Bool.not_true,
      decide_eq_false_iff_not] at hxk
    simp [hxk]
  rw [h1]
  simp

theorem lookupEnv_setEnv_ne (e : EnvMap) (k v k' : Str) (h : k' ≠ k) :
    lookupEnv (setEnv e k v) k' = lookupEnv e k' := by
  unfold lookupEnv setEnv
  rw [List.find?_append]
  rw [find?_filter_of_imp e (p := fun kv => kv.1 = k') (q := fun kv => kv.1 ≠ k)
    (fun x hx => by
      simp only [decide_eq_true_eq] at hx
      simp [hx, h])]
  cases hfind : e.find? (fun kv => kv.1 = k') with
  | none =>
    simp only [Option.none_or]
    simp [List.find?, show ¬ (k = k') from fun hk => h hk.symm]
  | some x => simp

theorem injectDotenv_preserves {procEnv : EnvMap} {k v : Str} :
    ∀ (dotenv : List (Str × Str)), lookupEnv procEnv k = some v → v ≠ [] →
      lookupEnv (injectDotenv procEnv dotenv) k = some v := by
  have step : ∀ (e : EnvMap) (a : Str × Str), lookupEnv e k = some v → v ≠ [] →
      lookupEnv (if truthyEnv e a.1 then e else setEnv e a.1 a.2) k = some v := by
    intro e a he hv
    by_cases ht : truthyEnv e a.1 = true
    · simp [ht, he]
    · rw [if_neg (by simp [ht])]
      by_cases hak : a.1 = k
      · subst hak
        exfalso
        apply ht
        unfold truthyEnv
        rw [he]
        simpa using hv
      · rw [lookupEnv_setEnv_ne _ _ _ _ (fun hk => hak hk.symm)]
        exact he
  intro dotenv
  induction dotenv generalizing procEnv with
  | nil => intro he _; exact he
  | cons a rest ih =>
    intro he hv
    unfold injectDotenv at ih ⊢
    rw [List.foldl_cons]
    exact ih (step procEnv a he hv) hv

theorem injectDotenv_new_keys :
    ∀ (dotenv procEnv : EnvMap) (k : Str),
      lookupEnv (injectDotenv procEnv dotenv) k ≠ lookupEnv procEnv k →
      ∃ v', (k, v') ∈ dotenv := by
  intro dotenv
  induction dotenv with
  | nil => intro e k h; exact absurd rfl h
  | cons a rest ih =>
    intro e k h
    have hstep : injectDotenv e (a :: rest) =
        injectDotenv (if truthyEnv e a.1 then e else setEnv e a.1 a.2) rest := by
      unfold injectDotenv
      rw [List.foldl_cons]
    rw [hstep] at h
    by_cases hsame :
        lookupEnv (if truthyEnv e a.1 then e else setEnv e a.1 a.2) k = lookupEnv e k
    · obtain ⟨v', hv'⟩ := ih _ k (by rw [hsame]; exact h)
      exact ⟨v', List.mem_cons_of_mem _ hv'⟩
    · by_cases hak : a.1 = k
      · refine ⟨a.2, ?_⟩
        have : (k, a.2) = a := by rw [← hak]
        rw [this]
        exact List.mem_cons_self a rest
      · exfalso
        apply hsame
        by_cases ht : truthyEnv e a.1 = true
        · simp [ht]
        · rw [if_neg (by simp [ht])]
          exact lookupEnv_setEnv_ne _ _ _ _ (fun hk => hak hk.symm)

/-- **C2 (counterexample).** The injection step does overwrite a pre-existing
process variable when its value is the empty string: with process
environment `FOO=` (empty value) and dotenv `FOO=dotenv_value`, the guard
`if not os.getenv(k)` is taken and `FOO` becomes `dotenv_value`. -/
theorem env_injection_counterexample :
    lookupEnv [("FOO".data, [])] "FOO".data = some []
    ∧ lookupEnv
        (injectDotenv [("FOO".data, [])] [("FOO".data, "dotenv_value".data)])
        "FOO".data = some "dotenv_value".data
    ∧ some ("dotenv_value".data) ≠ some ([] : Str) := by
  refine ⟨by decide, by decide, by decide⟩

/-- **C2 (amended).** Injection never overwrites a process variable whose
value is non-empty (for such keys the process value always wins), and the
only keys whose binding can change are keys of the dotenv mapping; a
variable present with the *empty* value is treated as unset and is
overwritten (see the counterexample). -/
theorem env_injection_one_way (procEnv dotenv : EnvMap) (k v : Str)
    (hv : lookupEnv procEnv k = some v) (hne : v ≠ []) :
    lookupEnv (injectDotenv procEnv dotenv) k = some v
    ∧ ∀ k', lookupEnv (injectDotenv procEnv dotenv) k' ≠ lookupEnv procEnv k' →
        ∃ v', (k', v') ∈ dotenv :=
  ⟨injectDotenv_preserves dotenv hv hne,
   fun k' h => injectDotenv_new_keys dotenv procEnv k' h⟩

/-- Witness for C2 (amended): process `A=x`, dotenv `A=y`; `A` keeps `x`. -/
theorem env_injection_one_way_witness :
    lookupEnv (injectDotenv [("A".data, "x".data)] [("A".data, "y".data)])
      "A".data = some "x".data :=
  (env_injection_one_way [("A".data, "x".data)] [("A".data, "y".data)]
    "A".data "x".data (by decide) (by decide)).1

theorem matchPH_token (name s : Str) (hne : name ≠ [])
    (hw : ∀ c ∈ name, isWordChar c = true) :
    matchPH ('$' :: '{' :: (name ++ '}' :: s)) = some (name, s) := by
  have htd := takeWhile_dropWhile_append (p := isWordChar) name hw '}' (by decide) s
  rw [show matchPH ('$' :: '{' :: (name ++ '}' :: s)) =
      (if ((name ++ '}' :: s).takeWhile isWordChar).isEmpty then none
       else
         match (name ++ '}' :: s).dropWhile isWordChar with
         | '}' :: tail => some ((name ++ '}' :: s).takeWhile isWordChar, tail)
         | _ => none) from rfl]
  rw [htd.1, htd.2]
  simp [hne]

/-- **C1.** String resolution replaces each `${NAME}` occurrence (NAME
nonempty alphanumeric/underscore) by, in priority order, the dotenv value,
else the process-environment value, else the original token text unchanged;
scanning continues after the token, other characters are copied.  The
function is total, so resolution never fails for an unresolvable name. -/
theorem placeholder_resolution_priority (env_map procEnv : EnvMap)
    (name s : Str) (hne : name ≠ [])
    (hw : ∀ c ∈ name, isWordChar c = true) :
    (∀ v, lookupEnv env_map name = some v →
      resolveStr env_map procEnv ('$' :: '{' :: (name ++ '}' :: s)) =
        v ++ resolveStr env_map procEnv s)
    ∧ (lookupEnv env_map name = none → ∀ v, lookupEnv procEnv name = some v →
      resolveStr env_map procEnv ('$' :: '{' :: (name ++ '}' :: s)) =
        v ++ resolveStr env_map procEnv s)
    ∧ (lookupEnv env_map name = none → lookupEnv procEnv name = none →
      resolveStr env_map procEnv ('$' :: '{' :: (name ++ '}' :: s)) =
        ('$' :: '{' :: (name ++ ['}'])) ++ resolveStr env_map procEnv s)
    ∧ (∀ c cs, matchPH (c :: cs) = none →
      resolveStr env_map procEnv (c :: cs) = c :: resolveStr env_map procEnv cs) := by
  have hm := matchPH_token name s hne hw
  refine ⟨?_, ?_, ?_, ?_⟩
  · intro v hv
    simp only [resolveStr]
    rw [substPH_cons_some _ hm]
    unfold phLook
    rw [hv]
  · intro h1 v hv
    simp only [resolveStr]
    rw [substPH_cons_some _ hm]
    unfold phLook
    rw [h1, hv]
  · intro h1 h2
    simp only [resolveStr]
    rw [substPH_cons_some _ hm]
    unfold phLook
    rw [h1, h2]
  · intro c cs hnone
    simp only [resolveStr]
    exact substPH_cons_none _ hnone

/-- Witness for C1: dotenv `FOO=bar`, process `FOO=proc`; the dotenv value
wins and the rest of the string is resolved recursively. -/
theorem placeholder_resolution_priority_witness :
    resolveStr [("FOO".data, "bar".data)] [("FOO".data, "proc".data)]
      ('$' :: '{' :: ("FOO".data ++ '}' :: " y".data)) =
      "bar".data ++
        resolveStr [("FOO".data, "bar".data)] [("FOO".data, "proc".data)] " y".data :=
  (placeholder_resolution_priority [("FOO".data, "bar".data)]
    [("FOO".data, "proc".data)] "FOO".data " y".data (by decide) (by decide)).1
    "bar".data (by decide)

theorem resolvePHList_eq (e p : EnvMap) :
    ∀ l : List Yaml, resolvePHList e p l = l.map (resolve_placeholders e p) := by
  intro l
  induction l with
  | nil => rfl
  | cons v rest ih => simp [resolvePHList, ih]

theorem resolvePHMap_eq (e p : EnvMap) :
    ∀ kvs : List (Str × Yaml),
      resolvePHMap e p kvs =
        kvs.map (fun kv => (kv.1, resolve_placeholders e p kv.2)) := by
  intro kvs
  induction kvs with
  | nil => rfl
  | cons kv rest ih =>
    cases kv
    simp [resolvePHMap, ih]

/-- **C8.** Resolution is structure-preserving: a mapping keeps exactly its
keys with each value resolved, a sequence keeps its length with each element
resolved in order, and every non-string scalar is returned unchanged. -/
theorem resolution_structure_preserving (e p : EnvMap)
    (kvs : List (Str × Yaml)) (l : List Yaml) (n : Int) (b : Bool) :
    resolve_placeholders e p (.map kvs)
      = .map (kvs.map (fun kv => (kv.1, resolve_placeholders e p kv.2)))
    ∧ (resolvePHMap e p kvs).map Prod.fst = kvs.map Prod.fst
    ∧ resolve_placeholders e p (.arr l) = .arr (l.map (resolve_placeholders e p))
    ∧ (resolvePHList e p l).length = l.length
    ∧ resolve_placeholders e p (.num n) = .num n
    ∧ resolve_placeholders e p (.bool b) = .bool b
    ∧ resolve_placeholders e p .null = .null := by
  refine ⟨?_, ?_, ?_, ?_, rfl, rfl, rfl⟩
  · simp [resolve_placeholders, resolvePHMap_eq]
  · simp [resolvePHMap_eq]
  · simp [resolve_placeholders, resolvePHList_eq]
  · simp [resolvePHList_eq]

theorem substPH_noPH (look : Str → Str) :
    ∀ s : Str, noPH s = true → substPH look s = s := by
  intro s
  induction s with
  | nil => intro _; rfl
  | cons c cs ih =>
    intro h
    unfold noPH at h
    rw [Bool.and_eq_true] at h
    rw [substPH_cons_none look (Option.isNone_iff_eq_none.mp h.1), ih h.2]

mutual
theorem resolve_noPH (e p : EnvMap) : ∀ y : Yaml, yamlNoPH y = true →
    resolve_placeholders e p y = y
  | .str s, h => by
    unfold yamlNoPH at h
    simp only [resolve_placeholders, resolveStr]
    rw [substPH_noPH _ s h]
  | .map kvs, h => by
    unfold yamlNoPH at h
    simp only [resolve_placeholders]
    rw [resolveMap_noPH e p kvs h]
  | .arr l, h => by
    unfold yamlNoPH at h
    simp only [resolve_placeholders]
    rw [resolveList_noPH e p l h]
  | .num n, _ => rfl
  | .bool b, _ => rfl
  | .null, _ => rfl

theorem resolveMap_noPH (e p : EnvMap) : ∀ kvs : List (Str × Yaml),
    mapNoPH kvs = true → resolvePHMap e p kvs = kvs
  | [], _ => rfl
  | (k, v) :: rest, h => by
    unfold mapNoPH at h
    rw [Bool.and_eq_true] at h
    simp only [resolvePHMap]
    rw [resolve_noPH e p v h.1, resolveMap_noPH e p rest h.2]

theorem resolveList_noPH (e p : EnvMap) : ∀ l : List Yaml,
    listNoPH l = true → resolvePHList e p l = l
  | [], _ => rfl
  | v :: rest, h => by
    unfold listNoPH at h
    rw [Bool.and_eq_true] at h
    simp only [resolvePHList]
    rw [resolve_noPH e p v h.1, resolveList_noPH e p rest h.2]
end

/-- **C9.** On a value containing no placeholder tokens, resolution is the
identity, hence idempotent: resolving twice equals resolving once, and both
equal the input. -/
theorem resolution_idempotent_no_tokens (e p : EnvMap) (y : Yaml)
    (h : yamlNoPH y = true) :
    resolve_placeholders e p y = y
    ∧ resolve_placeholders e p (resolve_placeholders e p y)
        = resolve_placeholders e p y := by
  have h1 := resolve_noPH e p y h
  exact ⟨h1, by rw [h1]; exact h1⟩

/-- Witness for C9: a nested mapping with no tokens is fixed by resolution. -/
theorem resolution_idempotent_no_tokens_witness :
    resolve_placeholders [("A".data, "v".data)] []
      (.map [("a".data, .map [("b".data, .str "hello".data)]),
             ("c".data, .arr [.num 3, .bool true, .null])])
      = .map [("a".data, .map [("b".data, .str "hello".data)]),
              ("c".data, .arr [.num 3, .bool true, .null])] :=
  (resolution_idempotent_no_tokens [("A".data, "v".data)] []
    (.map [("a".data, .map [("b".data, .str "hello".data)]),
           ("c".data, .arr [.num 3, .bool true, .null])]) (by decide)).1

/-- **C4.** When the resolved `apiKey` is a non-empty string that does not
start with `${`, the report is the masked form: first 4 characters, `...`,
and last 4 characters if the length exceeds 8, otherwise the fixed mask
`****`.  (Python truthiness: an empty resolved string takes the fallback
path instead, so "present" means non-empty here.) -/
theorem apiKey_masking (env_map procEnv : EnvMap) (name : Str)
    (info : List (Str × Yaml)) (s : Str)
    (hs : lookupYaml (resolvePHMap env_map procEnv info) "apiKey".data
            = some (.str s))
    (hne : s ≠ []) (hpre : pyStartsWith "$\x7b".data s = false) :
    apiKeyReport env_map procEnv name info = .masked (maskApiKey s)
    ∧ (8 < s.length →
        maskApiKey s = s.take 4 ++ "...".data ++ (s.reverse.take 4).reverse)
    ∧ (s.length ≤ 8 → maskApiKey s = "****".data) := by
  refine ⟨?_, ?_, ?_⟩
  · unfold apiKeyReport
    dsimp only
    rw [hs]
    split
    · rename_i s' heq
      injection heq with heq
      injection heq with heq
      subst heq
      rw [if_pos ⟨hne, by simp [hpre]⟩]
    · rename_i hcontra
      exact absurd rfl (hcontra s)
  · intro h8
    unfold maskApiKey
    rw [if_pos h8, List.take_reverse, List.reverse_reverse]
  · intro h8
    unfold maskApiKey
    rw [if_neg (by omega)]

/-- Witness for C4: `apiKey: abcdefghij` (length 10) masks to
`abcd...ghij`; a short key would mask to `****`. -/
theorem apiKey_masking_witness :
    apiKeyReport [] [] "p".data [("apiKey".data, Yaml.str "abcdefghij".data)]
      = .masked (maskApiKey "abcdefghij".data)
    ∧ maskApiKey "abcdefghij".data
        = "abcdefghij".data.take 4 ++ "...".data
          ++ ("abcdefghij".data.reverse.take 4).reverse :=
  ⟨(apiKey_masking [] [] "p".data [("apiKey".data, Yaml.str "abcdefghij".data)]
      "abcdefghij".data (by rfl) (by decide) (by decide)).1,
   (apiKey_masking [] [] "p".data [("apiKey".data, Yaml.str "abcdefghij".data)]
      "abcdefghij".data (by rfl) (by decide) (by decide)).2.1 (by decide)⟩

/-- **C10.** A config file that exists but parses to YAML null behaves
exactly like an absent file — exit status 1, no provider report, no agents
report, no completion message — except that the "Config file not found"
message is not printed (it only accompanies the absent-file case). -/
theorem null_config_exits_like_absent :
    mainRun true (some .null) = some ⟨1, false, false, 0, false, false⟩
    ∧ mainRun true none = some ⟨1, true, false, 0, false, false⟩ := by
  refine ⟨by decide, by decide⟩

theorem find?_first {α : Type} (p : α → Bool) :
    ∀ (l : List α) (i : Nat) (hi : i < l.length),
      p (l.get ⟨i, hi⟩) = true →
      (∀ j (hj : j < i), p (l.get ⟨j, Nat.lt_trans hj hi⟩) = false) →
      l.find? p = some (l.get ⟨i, hi⟩) := by
  intro l
  induction l with
  | nil => intro i hi; simp at hi
  | cons a rest ih =>
    intro i hi hp hbefore
    match i with
    | 0 => exact List.find?_cons_of_pos _ hp
    | j + 1 =>
      have ha : p a = false := hbefore 0 (Nat.succ_pos j)
      rw [List.find?_cons_of_neg _ (by simp [ha])]
      exact ih j (Nat.lt_of_succ_lt_succ hi) hp
        (fun j' hj' => hbefore (j' + 1) (Nat.succ_lt_succ hj'))

/-- **C5 (counterexample).** Two concrete refutations of the claim as
stated.  (a) The code extracts a candidate name from the original `apiKey`
whenever it merely starts with `${` and ends with `}`: for
`apiKey: "${A B}"` (which does not match the placeholder pattern, since a
space is not alphanumeric/underscore) the candidate list still contains
`A B`, contradicting "if and only if it matched the placeholder pattern".
(b) A candidate that *is* set in the process environment, but to the empty
string, is skipped by the truthy `if os.getenv(ev)` check and the warning
is printed anyway, contradicting "the first one found is reported as
present, and if none are set a warning ... is printed". -/
theorem candidate_extraction_counterexample :
    isPlaceholderToken "${A B}".data = false
    ∧ envVarCandidates (some (.str "${A B}".data)) "p".data
        = ["A B".data, "OPENCLAW_P_API_KEY".data]
    ∧ apiKeyReport [] [] "p".data [("apiKey".data, .str "${A B}".data)]
        = .warning ["A B".data, "OPENCLAW_P_API_KEY".data]
    ∧ lookupEnv [("OPENCLAW_P_API_KEY".data, [])] "OPENCLAW_P_API_KEY".data
        = some []
    ∧ fallbackReport [("OPENCLAW_P_API_KEY".data, [])] "p".data none
        = .warning ["OPENCLAW_P_API_KEY".data] := by
  refine ⟨by decide, by decide, by decide, by decide, by decide⟩

/-- **C5 (amended).** For an unresolved or absent apiKey the candidate list
consists of the text strictly between the delimiters — included if and only
if the original `apiKey` is a string that starts with `${` and ends with `}`
(the characters between are unconstrained); when the original `apiKey` is
absent or not a string the list is just the convention name — followed by
`OPENCLAW_<PROVIDERNAME_UPPERCASE>_API_KEY`; candidates are checked in order
against the process environment (Python truthiness: set to a non-empty
value), the first hit is reported present, and if none are set that way the
warning lists all candidates. -/
theorem fallback_candidate_resolution (procEnv : EnvMap) (name : Str)
    (orig : Option Yaml) :
    (∀ o, orig = some (Yaml.str o) →
      pyStartsWith "$\x7b".data o = true → pyEndsWith "\x7d".data o = true →
      envVarCandidates orig name =
        [(o.drop 2).dropLast,
         "OPENCLAW_".data ++ name.map Char.toUpper ++ "_API_KEY".data])
    ∧ (∀ o, orig = some (Yaml.str o) →
      (pyStartsWith "$\x7b".data o = false ∨ pyEndsWith "\x7d".data o = false) →
      envVarCandidates orig name =
        ["OPENCLAW_".data ++ name.map Char.toUpper ++ "_API_KEY".data])
    ∧ ((∀ o, orig ≠ some (Yaml.str o)) →
      envVarCandidates orig name =
        ["OPENCLAW_".data ++ name.map Char.toUpper ++ "_API_KEY".data])
    ∧ (∀ i (hi : i < (envVarCandidates orig name).length),
        truthyEnv procEnv ((envVarCandidates orig name).get ⟨i, hi⟩) = true →
        (∀ j (hj : j < i),
          truthyEnv procEnv
            ((envVarCandidates orig name).get ⟨j, Nat.lt_trans hj hi⟩) = false) →
        fallbackReport procEnv name orig =
          .envPresent ((envVarCandidates orig name).get ⟨i, hi⟩))
    ∧ ((∀ ev ∈ envVarCandidates orig name, truthyEnv procEnv ev = false) →
      fallbackReport procEnv name orig = .warning (envVarCandidates orig name)) := by
  refine ⟨?_, ?_, ?_, ?_, ?_⟩
  · intro o horig h1 h2
    subst horig
    unfold envVarCandidates
    split
    · rename_i o' heq
      injection heq with heq
      injection heq with heq
      subst heq
      rw [if_pos ⟨h1, h2⟩]
      rfl
    · rename_i hcontra
      exact absurd rfl (hcontra o)
  · intro o horig h
    subst horig
    unfold envVarCandidates
    split
    · rename_i o' heq
      injection heq with heq
      injection heq with heq
      subst heq
      rw [if_neg (by rcases h with h | h <;> simp [h])]
      rfl
    · rename_i hcontra
      exact absurd rfl (hcontra o)
  · intro hnostr
    cases orig with
    | none => rfl
    | some y =>
      cases y with
      | str o => exact absurd rfl (hnostr o)
      | num n => rfl
      | bool b => rfl
      | null => rfl
      | arr l => rfl
      | map kvs => rfl
  · intro i hi hp hbefore
    unfold fallbackReport
    dsimp only
    rw [find?_first (fun ev => truthyEnv procEnv ev) (envVarCandidates orig name)
      i hi hp hbefore]
  · intro hall
    unfold fallbackReport
    dsimp only
    rw [List.find?_eq_none.mpr (fun x hx => by simp [hall x hx])]

/-- Witness for C5 (amended): a provider `acme` with no `apiKey` key gets
only the convention candidate, and with `apiKey: "${MISSING}"` and
`MISSING=x` in the process environment the first candidate is reported
present. -/
theorem fallback_candidate_resolution_witness :
    envVarCandidates none "acme".data = ["OPENCLAW_ACME_API_KEY".data]
    ∧ fallbackReport [("MISSING".data, "x".data)] "acme".data
        (some (Yaml.str "${MISSING}".data)) =
        .envPresent ((envVarCandidates (some (Yaml.str "${MISSING}".data))
          "acme".data).get ⟨0, by decide⟩) :=
  ⟨(fallback_candidate_resolution [] "acme".data none).2.2.1
      (fun o h => Option.noConfusion h),
   (fallback_candidate_resolution [("MISSING".data, "x".data)] "acme".data
      (some (Yaml.str "${MISSING}".data))).2.2.2.1
      0 (by decide) (by decide) (fun j hj => absurd hj (Nat.not_lt_zero j))⟩

/-- **C3.** Exit status 2 when the YAML dependency is unavailable, detected
at startup before any other work (nothing printed, nothing reported);
exit status 1 when the config file is absent, and when the providers
section is missing or empty; exit status 0 exactly when validation runs to
completion (the completion message is printed), warnings permitted. -/
theorem exit_codes (file : Option Yaml) (kvs : List (Str × Yaml))
    (hprov : lookupYaml kvs "providers".data = none ∨
             lookupYaml kvs "providers".data = some (.map [])) :
    mainRun false file = some ⟨2, false, false, 0, false, false⟩
    ∧ mainRun true none = some ⟨1, true, false, 0, false, false⟩
    ∧ mainRun true (some (.map kvs)) = some ⟨1, false, true, 0, false, false⟩
    ∧ (∀ o, mainRun true file = some o →
        (o.exitCode = 0 ↔ o.printedComplete = true)) := by
  refine ⟨by rfl, by decide, ?_, ?_⟩
  · rcases hprov with h | h <;>
      simp [mainRun, load_config, isNull, optTruthy, yamlTruthy, h]
  · intro o h
    unfold mainRun at h
    rw [if_neg (by simp)] at h
    split at h
    · injection h with h
      subst h
      simp
    · split at h
      · dsimp only at h
        split at h
        · injection h with h
          subst h
          simp
        · split at h
          · split at h
            · injection h with h
              subst h
              simp
            · cases h
          · cases h
      · cases h

/-- Witness for C3: a config whose top-level mapping has no `providers` key
exits with status 1 after printing the missing-providers message. -/
theorem exit_codes_witness :
    mainRun true (some (.map [])) = some ⟨1, false, true, 0, false, false⟩ :=
  (exit_codes (some (.map [])) [] (Or.inl rfl)).2.2.1

/-- Witness for C6: the line `A=b` is split at the `=` into key `A` and
value `b`. -/
theorem dotenv_line_handling_witness :
    parseDotenvLine "A=b".data
      = some (pyStrip "A".data, stripQuotes (pyStrip "b".data)) :=
  (dotenv_line_handling "A=b".data).2.2 "A".data "b".data
    (by decide) (by decide) (by decide)
